import Mathlib

/-!
Verification of the feed-to-sample extraction pipeline of the `fastah/space`
repository (files `tools/main.go` and the flat variant in `src/unnamed/part_000`).

Go strings are modelled as lists of characters (`Str`); Go's `len` on strings is
the UTF-8 byte length, modelled by `goLen`.  Machine integers stay `Nat` with
explicit moduli where overflow matters.  The HTTP transport, the filesystem and
wall-clock time are modelled as explicit inputs (oracles); Go map iteration
order, which the language leaves unspecified, is modelled as a permutation
parameter at the points where the code ranges over a map.
-/

/-- Go string contents, as a list of characters. -/
abbrev Str := List Char

/-- Convert a Lean string literal to the `Str` model. -/
def gs (s : String) : Str := s.data

/-- Go `len` on a string: the UTF-8 byte length. -/
def goLen : Str → Nat
  | [] => 0
  | c :: rest => c.utf8Size + goLen rest

/-- Whitespace predicate of Go `unicode.IsSpace` restricted to Latin-1
    (space, TAB, LF, VT, FF, CR, NEL, NBSP); further Unicode space code points
    are not modelled and are not exercised by any claim. -/
def goIsSpace (c : Char) : Bool :=
  c = ' ' || c = '\t' || c = '\n' || c.toNat = 11 || c.toNat = 12 ||
  c = '\r' || c.toNat = 133 || c.toNat = 160

/-- Drop leading Go whitespace. -/
def dropSpaceLeft : Str → Str
  | [] => []
  | c :: rest => if goIsSpace c then dropSpaceLeft rest else c :: rest

/-- Go `strings.TrimSpace`. -/
def trimSpace (s : Str) : Str :=
  ((dropSpaceLeft s).reverse |> dropSpaceLeft).reverse

/-- Go `strings.ToUpper`; Lean's `Char.toUpper` maps the ASCII range, which is
    the range the feed data and all claims exercise. -/
def toUpperStr (s : Str) : Str := s.map Char.toUpper

/-- Go `strings.Split` on a one-character separator: always returns at least
    one (possibly empty) piece. -/
def splitChar (sep : Char) : Str → List Str
  | [] => [[]]
  | c :: rest =>
    match splitChar sep rest with
    | [] => [[]]
    | h :: t => if c = sep then [] :: h :: t else (c :: h) :: t

/-- Go `strings.Join` with a one-character separator. -/
def joinStrs (sep : Char) : List Str → Str
  | [] => []
  | [x] => x
  | x :: xs => x ++ sep :: joinStrs sep xs

/-- Go `strings.Join` with a string separator. -/
def joinWith (sep : Str) : List Str → Str
  | [] => []
  | [x] => x
  | x :: xs => x ++ sep ++ joinWith sep xs

/-- `feedColumnsToKey` from `tools/main.go`: derives the country-state-city
    grouping key from an RFC8805 CSV record.  `none` models the Go panic that
    the unconditional `cols[1]`, `cols[2]`, `cols[3]` index expressions raise
    when the record has fewer than four fields. -/
def feedColumnsToKey : List Str → Option Str
  | _ :: c1 :: c2 :: c3 :: _ =>
    let cc := toUpperStr (trimSpace c1)
    let st := toUpperStr (trimSpace c2)
    let city := trimSpace c3
    if goLen cc ≠ 2 then some []
    else if goLen st > 5 then some []
    else
      let splitstate := splitChar '-' st
      let st2 := if splitstate.length > 1 then splitstate.getD 1 [] else splitstate.getD 0 []
      some (joinStrs ',' [cc, st2, city])
  | _ => none

/-! ## The `net/netip` address model

`netip.Addr` distinguishes 4-byte and 16-byte addresses; the numeric value is
the big-endian integer of the bytes. -/

/-- `netip.Addr`: an IPv4 (value < 2^32) or IPv6 (value < 2^128) address. -/
inductive Addr where
  | v4 (n : Nat)
  | v6 (n : Nat)
deriving DecidableEq

/-- Bit width of the address family (`Addr.BitLen`). -/
def addrWidth : Addr → Nat
  | .v4 _ => 32
  | .v6 _ => 128

/-- `netip.Addr.IsPrivate`: RFC 1918 ranges for IPv4 and `fc00::/7` for IPv6. -/
def isPrivate : Addr → Bool
  | .v4 n =>
    let b0 := n / 16777216 % 256
    let b1 := n / 65536 % 256
    b0 = 10 || (b0 = 172 && b1 &&& 240 = 16) || (b0 = 192 && b1 = 168)
  | .v6 n =>
    (n / 2 ^ 120) &&& 254 = 252

/-- `netip.Addr.Next`: the successor address.  On the all-ones address Go
    returns the invalid zero `Addr`; in this model the value wraps instead.
    The pipeline only applies it to the network address of a multi-address
    CIDR, where no wrap can occur. -/
def addrNext : Addr → Addr
  | .v4 n => .v4 ((n + 1) % 2 ^ 32)
  | .v6 n => .v6 ((n + 1) % 2 ^ 128)

/-- `netip.Prefix`: an address plus a CIDR bit count. -/
structure Cidr where
  addr : Addr
  bits : Nat
deriving DecidableEq

/-- `netip.Prefix.IsValid` (for parsed prefixes the bit count is in range). -/
def cidrIsValid (p : Cidr) : Bool := p.bits ≤ addrWidth p.addr

/-- `netip.Prefix.IsSingleIP`: the bit count equals the family bit width. -/
def isSingleIP (p : Cidr) : Bool := p.bits = addrWidth p.addr

/-- `netip.Prefix.Masked().Addr()`: the address with the host bits zeroed. -/
def maskedAddr (p : Cidr) : Addr :=
  match p.addr with
  | .v4 n => .v4 (n - n % 2 ^ (32 - p.bits))
  | .v6 n => .v6 (n - n % 2 ^ (128 - p.bits))

/-- `netipx.RangeOfPrefix(p).From()`: `RangeOfPrefix` masks its argument, so
    the low end of the range is the masked network address. -/
def rangeFrom (p : Cidr) : Addr := maskedAddr p

/-! ### `netip.ParseAddr` / `netip.ParsePrefix` -/

/-- Field-list accumulator of `netip/parseIPv4`: `val`/`digLen` track the
    octet being read; the collected octets are appended to `fields`.
    Mirrors the leading-zero, >255, empty-field, trailing-dot and field-count
    checks of the Go code. -/
def ipv4Fields : Str → Nat → Nat → List Nat → Option (List Nat)
  | [], val, _, fields =>
    if fields.length < 3 then none else some (fields ++ [val])
  | c :: rest, val, digLen, fields =>
    if '0' ≤ c ∧ c ≤ '9' then
      if digLen = 1 ∧ val = 0 then none
      else
        let val := val * 10 + (c.toNat - '0'.toNat)
        if val > 255 then none
        else ipv4Fields rest val (digLen + 1) fields
    else if c = '.' then
      if digLen = 0 ∨ rest = [] then none
      else if fields.length = 3 then none
      else ipv4Fields rest 0 0 (fields ++ [val])
    else none

/-- Big-endian byte list to numeric value. -/
def bytesToNat (l : List Nat) : Nat := l.foldl (fun n b => n * 256 + b) 0

/-- `netip/parseIPv4`. -/
def parseIPv4Go (s : Str) : Option Addr :=
  (ipv4Fields s 0 0 []).map (fun fs => .v4 (bytesToNat fs))

/-- Hexadecimal digit value, as in `netip/parseIPv6`. -/
def hexDigitVal (c : Char) : Option Nat :=
  if '0' ≤ c ∧ c ≤ '9' then some (c.toNat - '0'.toNat)
  else if 'a' ≤ c ∧ c ≤ 'f' then some (c.toNat - 'a'.toNat + 10)
  else if 'A' ≤ c ∧ c ≤ 'F' then some (c.toNat - 'A'.toNat + 10)
  else none

/-- The inner hex-group scan of `netip/parseIPv6`: consumes a maximal run of
    hex digits, failing (like Go) as soon as the accumulator exceeds 0xFFFF.
    Returns the group value, the number of digits consumed and the rest. -/
def v6Group : Str → Nat → Nat → Option (Nat × Nat × Str)
  | [], acc, off => some (acc, off, [])
  | c :: rest, acc, off =>
    match hexDigitVal c with
    | none => some (acc, off, c :: rest)
    | some v =>
      let acc := acc * 16 + v
      if acc > 65535 then none else v6Group rest acc (off + 1)

/-- The main loop of `netip/parseIPv6` (`for i < 16`).  `ell` is the byte
    position of a `::` ellipsis, `ip` the bytes produced so far (`ip.length = i`).
    Returns the bytes, the ellipsis position, the final byte count and any
    unconsumed input (non-empty leftover means Go's trailing-garbage error).
    The first argument is recursion fuel: every iteration of the Go loop adds
    at least 2 to `i` and the loop stops once `i ≥ 16`, so with fuel 9 the
    out-of-fuel branch is unreachable. -/
def v6Loop : Nat → Str → Nat → Option Nat → List Nat →
    Option (List Nat × Option Nat × Nat × Str)
  | 0, _, _, _, _ => none
  | fuel + 1, s, i, ell, ip =>
    if i < 16 then
      match v6Group s 0 0 with
      | none => none
      | some (acc, off, rest) =>
        if off = 0 then none
        else
          match rest with
          | '.' :: _ =>
            if (ell.isNone ∧ i ≠ 12) ∨ i + 4 > 16 then none
            else
              match ipv4Fields s 0 0 [] with
              | none => none
              | some fs => some (ip ++ fs, ell, i + 4, [])
          | [] => some (ip ++ [acc / 256, acc % 256], ell, i + 2, [])
          | ':' :: rest2 =>
            match rest2 with
            | [] => none
            | ':' :: rest3 =>
              if ell.isSome then none
              else if rest3 = [] then some (ip ++ [acc / 256, acc % 256], some (i + 2), i + 2, [])
              else v6Loop fuel rest3 (i + 2) (some (i + 2)) (ip ++ [acc / 256, acc % 256])
            | _ => v6Loop fuel rest2 (i + 2) ell (ip ++ [acc / 256, acc % 256])
          | _ => none
    else some (ip, ell, i, s)

/-- Post-loop processing of `netip/parseIPv6`: trailing-garbage check,
    ellipsis expansion, and the `::`-must-expand check. -/
def finishV6 : Option (List Nat × Option Nat × Nat × Str) → Option Addr
  | none => none
  | some (ip, ell, i, leftover) =>
    if leftover ≠ [] then none
    else if i < 16 then
      match ell with
      | none => none
      | some e => some (.v6 (bytesToNat (ip.take e ++ List.replicate (16 - i) 0 ++ ip.drop e)))
    else if ell.isSome then none
    else some (.v6 (bytesToNat ip))

/-- `netip/parseIPv6` on the zone-stripped core of the input. -/
def parseIPv6Go (s : Str) : Option Addr :=
  match s with
  | ':' :: ':' :: rest =>
    if rest = [] then some (.v6 0)
    else finishV6 (v6Loop 9 rest 0 (some 0) [])
  | _ => finishV6 (v6Loop 9 s 0 none [])

/-- First occurrence of `'.'`, `':'` or `'%'`, which `netip.ParseAddr` uses to
    dispatch between the IPv4 and IPv6 grammars. -/
def firstSpecial : Str → Option Char
  | [] => none
  | c :: rest => if c = '.' ∨ c = ':' ∨ c = '%' then some c else firstSpecial rest

/-- Split at the first occurrence of `sep` (used for the IPv6 `%zone`). -/
def splitAtFirst (sep : Char) : Str → Option (Str × Str)
  | [] => none
  | c :: rest =>
    if c = sep then some ([], rest)
    else (splitAtFirst sep rest).map (fun q => (c :: q.1, q.2))

/-- `netip.ParseAddr`.  The `Bool` records whether a (non-empty) IPv6 zone was
    present; `netip.ParsePrefix` rejects zoned addresses. -/
def parseAddrGo (s : Str) : Option (Addr × Bool) :=
  match firstSpecial s with
  | some '.' => (parseIPv4Go s).map (fun a => (a, false))
  | some ':' =>
    match splitAtFirst '%' s with
    | some (core, zone) =>
      if zone = [] then none else (parseIPv6Go core).map (fun a => (a, true))
    | none => (parseIPv6Go s).map (fun a => (a, false))
  | _ => none

/-- Split at the last occurrence of `sep` (Go `stringsLastIndexByte('/')`). -/
def splitAtLast (sep : Char) : Str → Option (Str × Str)
  | [] => none
  | c :: rest =>
    match splitAtLast sep rest with
    | some (l, r) => some (c :: l, r)
    | none => if c = sep then some ([], rest) else none

/-- Go `strconv.Atoi`: optional sign, then decimal digits only.  Values beyond
    int64 make Go report an overflow error; such strings are 19+ digits and any
    such bit count already fails the `bits > maxBits` range check, so modelling
    the value exactly is equivalent for `ParsePrefix`. -/
def goAtoi (s : Str) : Option Int :=
  match s with
  | [] => none
  | c :: rest =>
    let p : Bool × Str := if c = '-' then (true, rest) else if c = '+' then (false, rest) else (false, s)
    if p.2 = [] then none
    else if p.2.all (fun d => decide ('0' ≤ d ∧ d ≤ '9')) then
      let n : Nat := p.2.foldl (fun a d => a * 10 + (d.toNat - '0'.toNat)) 0
      some (if p.1 then -(n : Int) else (n : Int))
    else none

/-- `netip.ParsePrefix`: split at the last `'/'`, parse the address (zones
    rejected), parse the bit count with `strconv.Atoi` and range-check it.
    Masked bits are not zeroed. -/
def parseCidr (s : Str) : Option Cidr :=
  match splitAtLast '/' s with
  | none => none
  | some (before, after) =>
    match parseAddrGo before with
    | none => none
    | some (ip, hasZone) =>
      if hasZone then none
      else
        match goAtoi after with
        | none => none
        | some bits =>
          let maxBits : Int := match ip with | .v4 _ => 32 | .v6 _ => 128
          if bits < 0 ∨ bits > maxBits then none
          else some ⟨ip, bits.toNat⟩

/-! ## Go map model

Go maps are modelled as association lists with overwrite-on-update; lookup is
order-independent.  Iteration order of `for … range m` is unspecified in Go, so
theorems about serialized output quantify over an arbitrary permutation of the
key set. -/

/-- Lookup in an association list (Go `m[k]` with `ok`). -/
def lookupA {α : Type} (k : Str) : List (Str × α) → Option α
  | [] => none
  | (k', v) :: rest => if k' = k then some v else lookupA k rest

/-- Overwriting update (Go `m[k] = v`). -/
def updA {α : Type} (k : Str) (v : α) : List (Str × α) → List (Str × α)
  | [] => [(k, v)]
  | (k', v') :: rest => if k' = k then (k, v) :: rest else (k', v') :: updA k v rest

/-- Go `m[cc] = append(m[cc], ip)` on a map of slices (append to the nil slice
    creates the entry). -/
def appendSample (k : Str) (ip : Addr) : List (Str × List Addr) → List (Str × List Addr)
  | [] => [(k, [ip])]
  | (k', l) :: rest => if k' = k then (k', l ++ [ip]) :: rest else (k', l) :: appendSample k ip rest

/-- Go `set[cc] = true` on a map used as a set: the key set after the update. -/
def insertVisible (cc : Str) (l : List Str) : List Str :=
  if cc ∈ l then l else l ++ [cc]

/-! ## Row Filter & Sampler: `tools/main.go` per-feed loop state -/

/-- The three per-feed accumulators of `tools/main.go` `main`:
    `sampleIps` (country → all representative addresses), `visible` (the
    `visibleCountries` key set) and `locations` (grouping key → one
    representative address, last write wins). -/
structure FeedState where
  sampleIps : List (Str × List Addr)
  visible : List Str
  locations : List (Str × Addr)
deriving DecidableEq

/-- The empty per-feed state (fresh maps at the top of the feed loop). -/
def initState : FeedState := ⟨[], [], []⟩

/-- `strings.ToUpper(strings.TrimSpace(row[1]))`, the country code of a row. -/
def ccOfRow (row : List Str) : Str := toUpperStr (trimSpace (row.getD 1 []))

/-- The representative sample address of a parsed prefix: the prefix's own
    (unmasked) address for single-address prefixes, otherwise
    `RangeOfPrefix(prefix).From().Next()` — the second address of the covered
    range. -/
def repAddr (p : Cidr) : Addr :=
  if isSingleIP p then p.addr else addrNext (rangeFrom p)

/-- One iteration of the row loop in `tools/main.go` `main` (lines 77–98).
    `none` models a panic: `row[0]` on an empty record, or the index panic
    inside `feedColumnsToKey` on a record with fewer than four fields (reached
    only when the prefix parsed). -/
def processRow (st : FeedState) (row : List Str) : Option FeedState :=
  match row with
  | [] => none
  | c0 :: _ =>
    match parseCidr (trimSpace c0) with
    | none => some st
    | some p =>
      match feedColumnsToKey row with
      | none => none
      | some locationKey =>
        if cidrIsValid p && !isPrivate p.addr && !locationKey.isEmpty then
          let ip := repAddr p
          let cc := ccOfRow row
          some { sampleIps := appendSample cc ip st.sampleIps,
                 visible := insertVisible cc st.visible,
                 locations := updA locationKey ip st.locations }
        else some st

/-- The whole row loop; a panic in any row aborts the process. -/
def processRows (st : FeedState) : List (List Str) → Option FeedState
  | [] => some st
  | row :: rest =>
    match processRow st row with
    | none => none
    | some st' => processRows st' rest

/-- Specification-side view of one row: `some (key, rep)` iff the row passes
    the prefix parse, the private-range filter and the location-key filter, in
    which case it contributes representative `rep` under grouping key `key`. -/
def rowEntry (row : List Str) : Option (Str × Addr) :=
  match row with
  | [] => none
  | c0 :: _ =>
    match parseCidr (trimSpace c0) with
    | none => none
    | some p =>
      match feedColumnsToKey row with
      | none => none
      | some key =>
        if cidrIsValid p && !isPrivate p.addr && !key.isEmpty then some (key, repAddr p)
        else none

/-! ## The flat variant (`src/unnamed/part_000`) -/

/-- Per-feed state of the flat variant: no composite `locations` map. -/
structure FlatState where
  sampleIps : List (Str × List Addr)
  visible : List Str
deriving DecidableEq

/-- One iteration of the row loop of the flat variant (part_000 lines 69–87).
    The guard `prefix.IsValid() && !prefix.Addr().IsPrivate() &&
    len(strings.TrimSpace(row[1])) == 2` short-circuits, so `row[1]` is indexed
    (and can panic, modelled by `none`) only when the prefix is valid and
    non-private. -/
def flatProcessRow (st : FlatState) (row : List Str) : Option FlatState :=
  match row with
  | [] => none
  | c0 :: rest0 =>
    match parseCidr (trimSpace c0) with
    | none => some st
    | some p =>
      if cidrIsValid p && !isPrivate p.addr then
        match rest0.get? 0 with
        | none => none
        | some c1 =>
          if goLen (trimSpace c1) = 2 then
            let cc := toUpperStr (trimSpace c1)
            some ⟨appendSample cc (repAddr p) st.sampleIps, insertVisible cc st.visible⟩
          else some st
      else some st

/-! ## Feed Fetcher (`readCSVUrl`, identical in both variants) -/

/-- An HTTP response: status code, the parse of the `last-modified` header
    (`none`: header absent or unparseable), and the result of
    `csv.ReadAll` on the body (`none`: CSV read error).  Timestamps are opaque
    naturals. -/
structure HttpResp where
  status : Nat
  lastModified : Option Nat
  body : Option (List (List Str))
deriving DecidableEq

/-- `readCSVUrl`: the whole HTTP exchange is the `resp` input (`none`: the
    transport error from `http.Get`).  Note the Go function never inspects
    `resp.StatusCode`: the body of any response, whatever its status, is handed
    to the CSV reader. -/
def readCSVUrl (now : Nat) (resp : Option HttpResp) : Option (List (List Str) × Nat) :=
  match resp with
  | none => none
  | some r =>
    let lmt := r.lastModified.getD now
    match r.body with
    | none => none
    | some data => some (data, lmt)

/-- The feed loop of `tools/main.go` `main`: a `readCSVUrl` error logs and
    `continue`s to the next feed (a `none` slot in the output list); a row-loop
    panic aborts the whole process (`none` overall). -/
def runFeeds (now : Nat) : List (Option HttpResp) → Option (List (Option (FeedState × Nat)))
  | [] => some []
  | resp :: rest =>
    match readCSVUrl now resp with
    | none => (runFeeds now rest).map (fun l => none :: l)
    | some (rows, lmt) =>
      match processRows initState rows with
      | none => none
      | some st => (runFeeds now rest).map (fun l => some (st, lmt) :: l)

/-! ## Output Serializer: the metadata JSON (`rfc8805.meta.json`) -/

/-- Hex digit character (lowercase, as `encoding/json` emits). -/
def hexChar (n : Nat) : Char :=
  if n < 10 then Char.ofNat ('0'.toNat + n) else Char.ofNat ('a'.toNat + (n - 10))

/-- Per-character escaping of `encoding/json` string encoding (HTML escaping
    on, as in `json.Marshal`/`MarshalIndent`). -/
def jsonEscapeChar (c : Char) : Str :=
  if c = '"' then ['\\', '"']
  else if c = '\\' then ['\\', '\\']
  else if c = '<' then gs "\\u003c"
  else if c = '>' then gs "\\u003e"
  else if c = '&' then gs "\\u0026"
  else if c = '\n' then ['\\', 'n']
  else if c = '\r' then ['\\', 'r']
  else if c = '\t' then ['\\', 't']
  else if c.toNat < 32 then gs "\\u00" ++ [hexChar (c.toNat / 16), hexChar (c.toNat % 16)]
  else if c.toNat = 8232 then gs "\\u2028"
  else if c.toNat = 8233 then gs "\\u2029"
  else [c]

/-- A JSON string literal. -/
def jsonQuote (s : Str) : Str := '"' :: s.flatMap jsonEscapeChar ++ ['"']

/-- The `visibleCountries` array as `MarshalIndent(…, "", " ")` lays it out at
    nesting depth 1 (elements indented two spaces, closing bracket one). -/
def serializeArr (vcl : List Str) : Str :=
  match vcl with
  | [] => gs "[]"
  | _ => gs "[\n" ++ joinWith (gs ",\n") (vcl.map (fun s => gs "  " ++ jsonQuote s)) ++ gs "\n ]"

/-- `json.MarshalIndent` of the `feedmeta` struct (fields in declaration
    order: provider, feedUrl, lastModified, visibleCountries), with the list
    of visible countries in the order the `for cc := range visibleCountries`
    loop happened to produce. -/
def marshalFeedMeta (provider url lastModified : Str) (vcl : List Str) : Str :=
  gs "\x7b\n " ++ jsonQuote (gs "provider") ++ gs ": " ++ jsonQuote provider ++ gs ",\n " ++
  jsonQuote (gs "feedUrl") ++ gs ": " ++ jsonQuote url ++ gs ",\n " ++
  jsonQuote (gs "lastModified") ++ gs ": " ++ jsonQuote lastModified ++ gs ",\n " ++
  jsonQuote (gs "visibleCountries") ++ gs ": " ++ serializeArr vcl ++ gs "\n\x7d"

/-! ## Geolocation Annotator (`ipToGeoJson`) -/

/-- The fields of the Fastah API response body that `ipToGeoJson` reads.
    Latitude/longitude are opaque payload copied verbatim into the output
    geometry (no arithmetic is performed on them), modelled as integers. -/
structure FastahResp where
  countryName : Str
  countryCode : Str
  stateName : Str
  stateCode : Str
  cityName : Str
  lat : Int
  lng : Int
deriving DecidableEq

/-- Outcome of one Fastah API exchange for an address:
    `reqBuildError` — `http.NewRequest` failed (the loop `continue`s);
    `transportError` — `c.Do` returned a non-nil error, so `resp` is nil;
    `response s b` — a response with status `s` whose body decodes to `b`
    (`none`: `json.Decode` error). -/
inductive LookupOutcome where
  | reqBuildError
  | transportError
  | response (status : Nat) (body : Option FastahResp)
deriving DecidableEq

/-- How the annotator terminates abnormally: the explicit
    `panic("API call error")`, or the runtime nil-pointer dereference raised
    while evaluating `resp.StatusCode` in the error log call when `resp` is
    nil. -/
inductive PanicKind where
  | nilDeref
  | apiCallError
deriving DecidableEq

/-- One GeoJSON feature as built by `ipToGeoJson` (geometry point plus the
    properties it sets).  The textual rendering of `ip` is not modelled. -/
structure Feature where
  lng : Int
  lat : Int
  cciso2 : Str
  countryName : Str
  displayName : Str
  markerColor : Str
  markerSize : Str
  title : Str
  ip : Addr
deriving DecidableEq

/-- `colorForBrand` from `tools/main.go`. -/
def colorForBrand (brand : Str) : Str :=
  if brand = gs "starlink" then gs "#5A5A5A"
  else if brand = gs "viasat" then gs "#009FE3"
  else gs "#009FE3"

/-- The fixed set of countries whose state is abbreviated in display names. -/
def abbrevCountry (cc : Str) : Bool :=
  cc = gs "US" || cc = gs "CA" || cc = gs "AU" || cc = gs "NZ" || cc = gs "GB" || cc = gs "CH"

/-- The display-name computation of `ipToGeoJson` (lines 256–270): city plus
    state code or state name when city and state are present and distinct,
    otherwise the state name, otherwise the country name. -/
def computeDisplayName (fr : FastahResp) : Str :=
  let d0 := fr.cityName
  let d1 :=
    if fr.stateName ≠ [] then
      if 0 < goLen d0 ∧ d0 ≠ fr.stateName then
        if abbrevCountry fr.countryCode then d0 ++ gs ", " ++ fr.stateCode
        else d0 ++ gs ", " ++ fr.stateName
      else fr.stateName
    else d0
  if d1 = [] then fr.countryName else d1

/-- The GeoJSON feature built for one successfully decoded lookup. -/
def mkFeature (brand provider : Str) (fr : FastahResp) (ip : Addr) : Feature :=
  { lng := fr.lng, lat := fr.lat, cciso2 := fr.countryCode,
    countryName := fr.countryName, displayName := computeDisplayName fr,
    markerColor := colorForBrand brand, markerSize := gs "large",
    title := provider, ip := ip }

/-- What one loop iteration of `ipToGeoJson` does with an address. -/
inductive GeoStep where
  | halt (pk : PanicKind)
  | skip
  | feat (f : Feature)

/-- One iteration of the lookup loop.  On a transport error the guard
    `err != nil || resp.StatusCode != http.StatusOK` short-circuits into the
    error branch, whose `fmt.Printf` argument `resp.StatusCode` dereferences
    the nil `resp` — a nil-pointer panic before `panic("API call error")` is
    reached.  With a non-nil response and a non-200 status the explicit panic
    fires.  A JSON decode error logs and `continue`s. -/
def annotateOne (oracle : Addr → LookupOutcome) (brand provider : Str) (ip : Addr) : GeoStep :=
  match oracle ip with
  | .reqBuildError => .skip
  | .transportError => .halt .nilDeref
  | .response s body =>
    if s ≠ 200 then .halt .apiCallError
    else
      match body with
      | none => .skip
      | some fr => .feat (mkFeature brand provider fr ip)

/-- `ipToGeoJson`: annotate every retained location in the order the
    `for uniqueloc, ip := range locations` loop produced; a panic in any
    iteration aborts the process with no feature collection. -/
def ipToGeoJson (oracle : Addr → LookupOutcome) (brand provider : Str) :
    List (Str × Addr) → Except PanicKind (List Feature)
  | [] => .ok []
  | (_, ip) :: rest =>
    match annotateOne oracle brand provider ip with
    | .halt pk => .error pk
    | .skip => ipToGeoJson oracle brand provider rest
    | .feat f => (ipToGeoJson oracle brand provider rest).map (fun fs => f :: fs)

/-! ## Concrete inputs and auxiliary definitions used by the theorems -/

/-- The state component that actually enters the grouping key: the trimmed,
    uppercased state field after the `-`-split prefix removal. -/
def stateComponent (c2 : Str) : Str :=
  let st := toUpperStr (trimSpace c2)
  let splitstate := splitChar '-' st
  if splitstate.length > 1 then splitstate.getD 1 [] else splitstate.getD 0 []

/-- A complete 404 response whose body is syntactically valid CSV. -/
def resp404 : HttpResp :=
  ⟨404, some 777, some [[gs "98.97.0.0/16", gs "US", gs "", gs ""]]⟩

/-- Witness state for the example rows `98.97.0.0/16,US,,` and `10.0.0.0/8,US,,`. -/
def st5 : FeedState :=
  ⟨[(gs "US", [Addr.v4 1650524161])], [gs "US"], [(gs "US,,", Addr.v4 1650524161)]⟩

/-- Witness state for a two-country feed. -/
def stC4 : FeedState :=
  ⟨[(gs "US", [Addr.v4 1650524161]), (gs "CA", [Addr.v4 16777217])],
   [gs "US", gs "CA"],
   [(gs "US,,", Addr.v4 1650524161), (gs "CA,,", Addr.v4 16777217)]⟩

/-- The invariant tying the visible-country set to the per-country sample
    lists: the set has no duplicates and contains exactly the countries with a
    non-empty sample list. -/
def visInv (st : FeedState) : Prop :=
  st.visible.Nodup ∧ ∀ cc, cc ∈ st.visible ↔ ∃ l, lookupA cc st.sampleIps = some l ∧ l ≠ []

/-! ## Basic lemmas about the string model -/

theorem goLen_pos_iff (s : Str) : 0 < goLen s ↔ s ≠ [] := by
  cases s with
  | nil => simp [goLen]
  | cons c rest =>
    simp only [goLen]
    constructor
    · intro _ h; cases h
    · intro _; have := Char.utf8Size_pos c; omega

theorem splitChar_ne_nil (sep : Char) (s : Str) : splitChar sep s ≠ [] := by
  induction s with
  | nil => simp [splitChar]
  | cons c rest ih =>
    simp only [splitChar]
    cases hs : splitChar sep rest with
    | nil => exact absurd hs ih
    | cons a t => by_cases hc : c = sep <;> simp [hc]

theorem splitChar_of_not_mem (sep : Char) (s : Str) (h : sep ∉ s) :
    splitChar sep s = [s] := by
  induction s with
  | nil => rfl
  | cons c rest ih =>
    simp only [List.mem_cons, not_or] at h
    have hc : ¬ c = sep := fun hcc => h.1 hcc.symm
    simp only [splitChar]
    rw [ih h.2]
    simp [hc]

theorem splitChar_append_cons (sep : Char) (x t : Str) (h : sep ∉ x) :
    splitChar sep (x ++ sep :: t) = x :: splitChar sep t := by
  induction x with
  | nil =>
    simp only [List.nil_append, splitChar]
    cases hs : splitChar sep t with
    | nil => exact absurd hs (splitChar_ne_nil sep t)
    | cons a u => simp
  | cons c rest ih =>
    simp only [List.mem_cons, not_or] at h
    have hc : ¬ c = sep := fun hcc => h.1 hcc.symm
    simp only [List.cons_append, splitChar, List.append_eq]
    rw [ih h.2]
    simp [hc]

theorem splitChar_joinStrs (sep : Char) (l : List Str) (hne : l ≠ [])
    (h : ∀ s ∈ l, sep ∉ s) : splitChar sep (joinStrs sep l) = l := by
  induction l with
  | nil => cases hne rfl
  | cons x xs ih =>
    cases xs with
    | nil =>
      simp only [joinStrs]
      exact splitChar_of_not_mem sep x (h x (by simp))
    | cons y ys =>
      have hx : sep ∉ x := h x (by simp)
      simp only [joinStrs]
      rw [splitChar_append_cons sep x (joinStrs sep (y :: ys)) hx]
      rw [ih (by simp) (fun s hs => h s (List.mem_cons_of_mem x hs))]

theorem joinStrs_triple_ne_nil (a b c : Str) : joinStrs ',' [a, b, c] ≠ [] := by
  cases a <;> simp [joinStrs]

/-! ## C1: feed-fetcher error handling -/

/-- Claim C1 (counterexample): `readCSVUrl` never checks the HTTP status code,
    so a non-200 response with a CSV-parseable body is *not* treated as a
    fatal-for-this-feed error: its rows are returned and the feed-loop
    processes the feed instead of skipping it. -/
theorem c1_counterexample :
    resp404.status ≠ 200
    ∧ readCSVUrl 0 (some resp404) = some ([[gs "98.97.0.0/16", gs "US", gs "", gs ""]], 777)
    ∧ runFeeds 0 [some resp404] =
        some [some (⟨[(gs "US", [Addr.v4 1650524161])], [gs "US"],
          [(gs "US,,", Addr.v4 1650524161)]⟩, 777)] := by
  decide

/-- Claim C1 (amended): a network (transport) error from `http.Get`, or a CSV
    read error on the body, is fatal for the feed — no rows are returned, the
    feed produces no output and the loop continues with the next feed; the HTTP
    status code is never consulted, and any response whose body parses as CSV
    yields its rows. -/
theorem c1_amended :
    (∀ now, readCSVUrl now none = none)
    ∧ (∀ now r, r.body = none → readCSVUrl now (some r) = none)
    ∧ (∀ now r rows, r.body = some rows →
        readCSVUrl now (some r) = some (rows, r.lastModified.getD now))
    ∧ (∀ now resp rest, readCSVUrl now resp = none →
        runFeeds now (resp :: rest) = (runFeeds now rest).map (fun l => none :: l)) := by
  refine ⟨fun _ => rfl, ?_, ?_, ?_⟩
  · intro now r h; simp [readCSVUrl, h]
  · intro now r rows h; simp [readCSVUrl, h]
  · intro now resp rest h; simp [runFeeds, h]

/-- Witness for `c1_amended` at concrete inputs. -/
theorem c1_amended_witness :
    readCSVUrl 3 (some ⟨200, some 9, none⟩) = none ∧ runFeeds 3 [none] = some [none] := by
  constructor
  · exact c1_amended.2.1 3 ⟨200, some 9, none⟩ rfl
  · have h := c1_amended.2.2.2 3 none [] (c1_amended.1 3)
    rw [h]; rfl

/-! ## C2: location-key validation -/

/-- Claim C2 (counterexample): the state field `"US-MASS"` (7 bytes) is
    rejected — `feedColumnsToKey` length-checks the state *before* removing the
    `US-` country prefix, so the key is empty and the row contributes nothing
    to the state. -/
theorem c2_counterexample :
    feedColumnsToKey [gs "98.97.0.0/16", gs "US", gs "US-MASS", gs "Boston"] = some []
    ∧ processRow initState [gs "98.97.0.0/16", gs "US", gs "US-MASS", gs "Boston"]
        = some initState := by
  decide

/-- Claim C2 (amended): for a record with at least four fields the derived
    location key is non-empty exactly when the trimmed, uppercased country
    field is 2 bytes long and the trimmed, uppercased state field is at most 5
    bytes long *before* any `US-`-style prefix is removed. -/
theorem c2_amended :
    ∀ c0 c1 c2 c3 rest key,
      feedColumnsToKey (c0 :: c1 :: c2 :: c3 :: rest) = some key →
      (key ≠ [] ↔
        goLen (toUpperStr (trimSpace c1)) = 2 ∧ goLen (toUpperStr (trimSpace c2)) ≤ 5) := by
  intro c0 c1 c2 c3 rest key h
  simp only [feedColumnsToKey] at h
  split at h
  · next hcc =>
    injection h with h; subst h
    simp only [ne_eq, not_true_eq_false, false_iff, not_and]
    intro h2; exact absurd h2 hcc
  · split at h
    · next hst =>
      injection h with h; subst h
      simp only [ne_eq, not_true_eq_false, false_iff, not_and]
      intro _ h5; omega
    · next hcc hst =>
      injection h with h; subst h
      simp only [ne_eq, joinStrs_triple_ne_nil, not_false_eq_true, true_iff]
      exact ⟨by omega, by omega⟩

/-- Witness for `c2_amended`: `"US-MA"` (5 bytes) passes the pre-split length
    check and is accepted. -/
theorem c2_amended_witness :
    gs "US,MA,Boston" ≠ []
    ∧ (goLen (toUpperStr (trimSpace (gs "us"))) = 2
       ∧ goLen (toUpperStr (trimSpace (gs "US-MA"))) ≤ 5) := by
  have h := c2_amended (gs "98.97.0.0/16") (gs "us") (gs "US-MA") (gs "Boston") [] (gs "US,MA,Boston") (by decide)
  exact ⟨by decide, h.mp (by decide)⟩

/-! ## C3: composite grouping-key shape and round-trip -/

/-- Claim C3 (counterexample): the row `98.97.0.0/16,US,,` derives the
    grouping key `"US,,"`, not `"US,,,"`, and that key splits on its `','`
    delimiter into three components, not four. -/
theorem c3_counterexample :
    feedColumnsToKey [gs "98.97.0.0/16", gs "US", gs "", gs ""] = some (gs "US,,")
    ∧ gs "US,," ≠ gs "US,,,"
    ∧ (splitChar ',' (gs "US,,")).length = 3 := by
  decide

/-- Claim C3 (amended): a non-empty derived key, split on `','`, recovers the
    three normalized components — the uppercased country, the uppercased state
    after prefix removal, and the trimmed city — whenever the components are
    comma-free. -/
theorem c3_amended :
    ∀ c0 c1 c2 c3 rest key,
      feedColumnsToKey (c0 :: c1 :: c2 :: c3 :: rest) = some key → key ≠ [] →
      ',' ∉ toUpperStr (trimSpace c1) → ',' ∉ stateComponent c2 → ',' ∉ trimSpace c3 →
      splitChar ',' key =
        [toUpperStr (trimSpace c1), stateComponent c2, trimSpace c3] := by
  intro c0 c1 c2 c3 rest key h hk h1 h2 h3
  simp only [feedColumnsToKey] at h
  split at h
  · injection h with h; exact absurd h.symm hk
  · split at h
    · injection h with h; exact absurd h.symm hk
    · injection h with h
      subst h
      exact splitChar_joinStrs ',' [toUpperStr (trimSpace c1), stateComponent c2, trimSpace c3]
        (by simp) (by intro s hs; simp only [List.mem_cons] at hs; rcases hs with rfl | rfl | rfl | hs
                      exacts [h1, h2, h3, absurd hs (by simp)])

/-- Witness for `c3_amended` at a concrete accepted row. -/
theorem c3_amended_witness :
    splitChar ',' (gs "US,MA,Boston") = [gs "US", gs "MA", gs "Boston"] := by
  have h := c3_amended (gs "98.97.0.0/16") (gs "us") (gs "US-MA") (gs "Boston") []
    (gs "US,MA,Boston") (by decide) (by decide) (by decide) (by decide) (by decide)
  have e1 : toUpperStr (trimSpace (gs "us")) = gs "US" := by decide
  have e2 : stateComponent (gs "US-MA") = gs "MA" := by decide
  have e3 : trimSpace (gs "Boston") = gs "Boston" := by decide
  rw [e1, e2, e3] at h
  exact h

/-! ## C9: totality preconditions of the row filter -/

/-- `feedColumnsToKey` never panics on records with at least four fields. -/
theorem feedColumnsToKey_isSome (c0 c1 c2 c3 : Str) (rest : List Str) :
    ∃ k, feedColumnsToKey (c0 :: c1 :: c2 :: c3 :: rest) = some k := by
  simp only [feedColumnsToKey]
  split
  · exact ⟨[], rfl⟩
  · split
    · exact ⟨[], rfl⟩
    · exact ⟨_, rfl⟩

/-- Claim C9: the row filter is total exactly on records with at least four
    fields (two for the flat variant): `feedColumnsToKey` panics precisely when
    the record has fewer than four fields; the composite row step cannot panic
    on records of four or more fields, nor the flat row step on records of two
    or more; and concrete short records with a parseable prefix do panic
    instead of being skipped as a row-level error. -/
theorem c9_row_filter_totality :
    (∀ cols, feedColumnsToKey cols = none ↔ cols.length < 4)
    ∧ (∀ st row, 4 ≤ row.length → processRow st row ≠ none)
    ∧ (∀ st row, 2 ≤ row.length → flatProcessRow st row ≠ none)
    ∧ flatProcessRow ⟨[], []⟩ [gs "98.97.0.0/16"] = none
    ∧ processRow initState [gs "98.97.0.0/16", gs "US"] = none := by
  refine ⟨?_, ?_, ?_, by decide, by decide⟩
  · intro cols
    match cols with
    | [] => simp [feedColumnsToKey]
    | [_] => simp [feedColumnsToKey]
    | [_, _] => simp [feedColumnsToKey]
    | [_, _, _] => simp [feedColumnsToKey]
    | c0 :: c1 :: c2 :: c3 :: rest =>
      obtain ⟨k, hk⟩ := feedColumnsToKey_isSome c0 c1 c2 c3 rest
      simp [hk]
  · intro st row hlen
    match row with
    | c0 :: c1 :: c2 :: c3 :: rest =>
      simp only [processRow]
      cases hp : parseCidr (trimSpace c0) with
      | none => simp
      | some p =>
        obtain ⟨k, hk⟩ := feedColumnsToKey_isSome c0 c1 c2 c3 rest
        rw [hk]
        split <;> first
        | (split <;> first
            | (split <;> simp_all)
            | simp_all)
        | simp_all
  · intro st row hlen
    match row with
    | c0 :: c1 :: rest =>
      simp only [flatProcessRow]
      cases hp : parseCidr (trimSpace c0) with
      | none => simp
      | some p =>
        simp only [List.get?]
        split
        · split <;> simp
        · simp

/-- Witness for `c9_row_filter_totality` at concrete records. -/
theorem c9_row_filter_totality_witness :
    (feedColumnsToKey [gs "98.97.0.0/16", gs "US"] = none ↔ ([gs "98.97.0.0/16", gs "US"] : List Str).length < 4)
    ∧ processRow initState [gs "98.97.0.0/16", gs "US", gs "", gs ""] ≠ none := by
  exact ⟨c9_row_filter_totality.1 [gs "98.97.0.0/16", gs "US"],
    c9_row_filter_totality.2.1 initState [gs "98.97.0.0/16", gs "US", gs "", gs ""] (by decide)⟩

/-! ## C8: display-name construction -/

/-- Claim C8: the `displayName` property of a geocoded feature is
    "city, state-code" for distinct non-empty city/state in one of
    US, CA, AU, NZ, GB, CH; "city, state-name" in that situation elsewhere;
    the state name alone when the city is empty or equals the state name; and
    the country name when city and state are both empty. -/
theorem c8_display_name :
    ∀ brand provider ip fr,
      (fr.cityName ≠ [] → fr.stateName ≠ [] → fr.cityName ≠ fr.stateName →
        abbrevCountry fr.countryCode = true →
        (mkFeature brand provider fr ip).displayName = fr.cityName ++ gs ", " ++ fr.stateCode)
      ∧ (fr.cityName ≠ [] → fr.stateName ≠ [] → fr.cityName ≠ fr.stateName →
        abbrevCountry fr.countryCode = false →
        (mkFeature brand provider fr ip).displayName = fr.cityName ++ gs ", " ++ fr.stateName)
      ∧ (fr.stateName ≠ [] → (fr.cityName = [] ∨ fr.cityName = fr.stateName) →
        (mkFeature brand provider fr ip).displayName = fr.stateName)
      ∧ (fr.cityName = [] → fr.stateName = [] →
        (mkFeature brand provider fr ip).displayName = fr.countryName) := by
  intro brand provider ip fr
  refine ⟨?_, ?_, ?_, ?_⟩
  · intro hcity hstate hne habb
    simp only [mkFeature, computeDisplayName, hstate, ne_eq, not_false_eq_true, if_true, habb,
      (goLen_pos_iff fr.cityName).mpr hcity, hne, and_true, if_true]
    simp [hcity]
  · intro hcity hstate hne habb
    simp only [mkFeature, computeDisplayName, hstate, ne_eq, not_false_eq_true, if_true, habb,
      (goLen_pos_iff fr.cityName).mpr hcity, hne, and_true, if_true, if_false]
    simp [hcity]
  · intro hstate hcity
    rcases hcity with hcity | hcity
    · simp only [mkFeature, computeDisplayName, hstate, ne_eq, not_false_eq_true, if_true, hcity]
      simp [goLen, hstate]
    · simp only [mkFeature, computeDisplayName, hstate, ne_eq, not_false_eq_true, if_true, hcity]
      simp [hstate]
  · intro hcity hstate
    simp [mkFeature, computeDisplayName, hcity, hstate]

/-- Witness for `c8_display_name` at concrete responses. -/
theorem c8_display_name_witness :
    (mkFeature (gs "starlink") (gs "SpaceX Starlink")
      ⟨gs "United States", gs "US", gs "Washington", gs "WA", gs "Seattle", 47, -122⟩
      (Addr.v4 1650524161)).displayName = gs "Seattle, WA"
    ∧ (mkFeature (gs "starlink") (gs "SpaceX Starlink")
      ⟨gs "India", gs "IN", gs "Karnataka", gs "KA", gs "Bengaluru", 12, 77⟩
      (Addr.v4 1650524161)).displayName = gs "Bengaluru, Karnataka"
    ∧ (mkFeature (gs "starlink") (gs "SpaceX Starlink")
      ⟨gs "United States", gs "US", gs "Washington", gs "WA", gs "", 47, -122⟩
      (Addr.v4 1650524161)).displayName = gs "Washington"
    ∧ (mkFeature (gs "starlink") (gs "SpaceX Starlink")
      ⟨gs "United States", gs "US", gs "", gs "", gs "", 39, -98⟩
      (Addr.v4 1650524161)).displayName = gs "United States" := by
  refine ⟨?_, ?_, ?_, ?_⟩
  · exact (c8_display_name (gs "starlink") (gs "SpaceX Starlink") (Addr.v4 1650524161)
      ⟨gs "United States", gs "US", gs "Washington", gs "WA", gs "Seattle", 47, -122⟩).1
      (by decide) (by decide) (by decide) (by decide)
  · exact (c8_display_name (gs "starlink") (gs "SpaceX Starlink") (Addr.v4 1650524161)
      ⟨gs "India", gs "IN", gs "Karnataka", gs "KA", gs "Bengaluru", 12, 77⟩).2.1
      (by decide) (by decide) (by decide) (by decide)
  · exact (c8_display_name (gs "starlink") (gs "SpaceX Starlink") (Addr.v4 1650524161)
      ⟨gs "United States", gs "US", gs "Washington", gs "WA", gs "", 47, -122⟩).2.2.1
      (by decide) (Or.inl (by decide))
  · exact (c8_display_name (gs "starlink") (gs "SpaceX Starlink") (Addr.v4 1650524161)
      ⟨gs "United States", gs "US", gs "", gs "", gs "", 39, -98⟩).2.2.2
      (by decide) (by decide)

/-! ## C6 and C10: annotator error handling -/

theorem ipToGeoJson_append (oracle : Addr → LookupOutcome) (brand provider : Str) :
    ∀ l1 l2, ipToGeoJson oracle brand provider (l1 ++ l2) =
      match ipToGeoJson oracle brand provider l1 with
      | .error pk => .error pk
      | .ok fs => (ipToGeoJson oracle brand provider l2).map (fun l => fs ++ l) := by
  intro l1 l2
  induction l1 with
  | nil =>
    simp only [List.nil_append, ipToGeoJson]
    cases ipToGeoJson oracle brand provider l2 <;> simp [Except.map]
  | cons e t ih =>
    obtain ⟨loc, ip⟩ := e
    simp only [List.cons_append, ipToGeoJson, List.append_eq]
    cases annotateOne oracle brand provider ip with
    | halt pk => rfl
    | skip => exact ih
    | feat f =>
      rw [ih]
      cases ipToGeoJson oracle brand provider t with
      | error pk => rfl
      | ok fs =>
        cases ipToGeoJson oracle brand provider l2 <;> simp [Except.map]

/-- Claim C6: once the addresses before it have been annotated successfully, a
    non-200 response for the next address aborts the whole annotation run with
    the explicit panic and a network (transport) error likewise aborts the
    whole run (through the nil dereference in the log call), while a 200
    response whose body fails to decode is skipped — annotation continues with
    the remaining addresses and the address contributes no feature. -/
theorem c6_annotator_errors :
    ∀ (oracle : Addr → LookupOutcome) brand provider pre post loc ip fs s b,
      ipToGeoJson oracle brand provider pre = .ok fs →
      ((oracle ip = .response s b → s ≠ 200 →
          ipToGeoJson oracle brand provider (pre ++ (loc, ip) :: post) = .error .apiCallError)
      ∧ (oracle ip = .transportError →
          ipToGeoJson oracle brand provider (pre ++ (loc, ip) :: post) = .error .nilDeref)
      ∧ (oracle ip = .response 200 none →
          ipToGeoJson oracle brand provider (pre ++ (loc, ip) :: post) =
            (ipToGeoJson oracle brand provider post).map (fun l => fs ++ l))) := by
  intro oracle brand provider pre post loc ip fs s b hpre
  refine ⟨?_, ?_, ?_⟩
  · intro ho hs
    rw [ipToGeoJson_append oracle brand provider pre ((loc, ip) :: post), hpre]
    simp only [ipToGeoJson, annotateOne, ho, if_pos hs]
    rfl
  · intro ho
    rw [ipToGeoJson_append oracle brand provider pre ((loc, ip) :: post), hpre]
    simp [ipToGeoJson, annotateOne, ho, Except.map]
  · intro ho
    rw [ipToGeoJson_append oracle brand provider pre ((loc, ip) :: post), hpre]
    simp [ipToGeoJson, annotateOne, ho]

/-- Witness for `c6_annotator_errors`: a 500 response aborts; a 200 response
    with an undecodable body is skipped and the run succeeds. -/
theorem c6_annotator_errors_witness :
    ipToGeoJson (fun _ => .response 500 none) (gs "starlink") (gs "SpaceX Starlink")
      [(gs "US,,", Addr.v4 1650524161)] = .error .apiCallError
    ∧ ipToGeoJson (fun _ => .response 200 none) (gs "starlink") (gs "SpaceX Starlink")
      [(gs "US,,", Addr.v4 1650524161)] = .ok [] := by
  constructor
  · exact (c6_annotator_errors (fun _ => .response 500 none) (gs "starlink")
      (gs "SpaceX Starlink") [] [] (gs "US,,") (Addr.v4 1650524161) [] 500 none rfl).1
      rfl (by decide)
  · exact (c6_annotator_errors (fun _ => .response 200 none) (gs "starlink")
      (gs "SpaceX Starlink") [] [] (gs "US,,") (Addr.v4 1650524161) [] 200 none rfl).2.2
      rfl

/-- Claim C10: a transport (network) error on a lookup terminates the process
    abnormally via the nil-pointer dereference in the error-log call — the
    `fmt.Printf` argument `resp.StatusCode` is evaluated with `resp == nil`
    before the explicit `panic("API call error")` is reached. -/
theorem c10_nil_deref_on_transport_error :
    ∀ (oracle : Addr → LookupOutcome) brand provider pre post loc ip fs,
      ipToGeoJson oracle brand provider pre = .ok fs →
      oracle ip = .transportError →
      ipToGeoJson oracle brand provider (pre ++ (loc, ip) :: post) = .error .nilDeref := by
  intro oracle brand provider pre post loc ip fs hpre ho
  rw [ipToGeoJson_append oracle brand provider pre ((loc, ip) :: post), hpre]
  simp [ipToGeoJson, annotateOne, ho, Except.map]

/-- Witness for `c10_nil_deref_on_transport_error`. -/
theorem c10_nil_deref_on_transport_error_witness :
    ipToGeoJson (fun _ => .transportError) (gs "starlink") (gs "SpaceX Starlink")
      [(gs "US,,", Addr.v4 1650524161)] = .error .nilDeref := by
  exact c10_nil_deref_on_transport_error (fun _ => .transportError) (gs "starlink")
    (gs "SpaceX Starlink") [] [] (gs "US,,") (Addr.v4 1650524161) [] rfl rfl

/-! ## Association-list lemmas for the Go map model -/

theorem lookupA_updA {α : Type} (k k' : Str) (v : α) :
    ∀ l : List (Str × α), lookupA k' (updA k v l) =
      if k = k' then some v else lookupA k' l := by
  intro l
  induction l with
  | nil => simp [updA, lookupA]
  | cons e t ih =>
    obtain ⟨a, b⟩ := e
    by_cases hak : a = k
    · subst hak
      simp only [updA, if_pos rfl, lookupA]
      by_cases hk' : a = k' <;> simp [hk']
    · simp only [updA, if_neg hak, lookupA]
      have hka : ¬ k = a := fun h => hak h.symm
      by_cases hk' : a = k'
      · subst hk'
        rw [if_pos rfl, if_neg hka, if_pos rfl]
      · rw [if_neg hk', ih, if_neg hk']

theorem map_fst_updA {α : Type} (k : Str) (v : α) :
    ∀ l : List (Str × α), (updA k v l).map Prod.fst =
      if k ∈ l.map Prod.fst then l.map Prod.fst else l.map Prod.fst ++ [k] := by
  intro l
  induction l with
  | nil =>
    simp only [updA, List.map_nil, List.map_cons]
    rw [if_neg (List.not_mem_nil k)]
    rfl
  | cons e t ih =>
    obtain ⟨a, b⟩ := e
    by_cases hak : a = k
    · subst hak
      have hu : updA a v ((a, b) :: t) = (a, v) :: t := by simp [updA]
      rw [hu, List.map_cons, List.map_cons, if_pos (List.mem_cons_self a (t.map Prod.fst))]
    · simp only [updA, if_neg hak, List.map_cons, ih]
      have hka : ¬ k = a := fun h => hak h.symm
      by_cases hm : k ∈ t.map Prod.fst
      · rw [if_pos hm, if_pos (List.mem_cons_of_mem a hm)]
      · rw [if_neg hm, if_neg (by simp [List.mem_cons, hka, hm])]
        rfl

theorem nodup_map_fst_updA {α : Type} (k : Str) (v : α) (l : List (Str × α))
    (h : (l.map Prod.fst).Nodup) : ((updA k v l).map Prod.fst).Nodup := by
  rw [map_fst_updA]
  split
  · exact h
  · next hm =>
    rw [List.nodup_append]
    refine ⟨h, List.nodup_singleton k, ?_⟩
    intro x hx hk'
    simp only [List.mem_singleton] at hk'
    subst hk'
    exact hm hx

theorem mem_insertVisible (a b : Str) (l : List Str) :
    a ∈ insertVisible b l ↔ a ∈ l ∨ a = b := by
  unfold insertVisible
  split
  · next hb =>
    constructor
    · exact Or.inl
    · rintro (h | rfl)
      · exact h
      · exact hb
  · simp [List.mem_append]

theorem nodup_insertVisible (b : Str) (l : List Str) (h : l.Nodup) :
    (insertVisible b l).Nodup := by
  unfold insertVisible
  split
  · exact h
  · next hb =>
    rw [List.nodup_append]
    refine ⟨h, List.nodup_singleton b, ?_⟩
    intro x hx hb'
    simp only [List.mem_singleton] at hb'
    subst hb'
    exact hb hx

theorem lookupA_appendSample_same (k : Str) (ip : Addr) :
    ∀ l, lookupA k (appendSample k ip l) = some ((lookupA k l).getD [] ++ [ip]) := by
  intro l
  induction l with
  | nil => simp [appendSample, lookupA]
  | cons e t ih =>
    obtain ⟨a, b⟩ := e
    by_cases hak : a = k
    · subst hak
      simp only [appendSample, if_pos rfl, lookupA, if_pos rfl]
      rfl
    · simp only [appendSample, if_neg hak, lookupA, if_neg hak]
      exact ih

theorem lookupA_appendSample_ne (k k' : Str) (ip : Addr) (hne : k ≠ k') :
    ∀ l, lookupA k' (appendSample k ip l) = lookupA k' l := by
  intro l
  induction l with
  | nil => simp [appendSample, lookupA, fun h : k = k' => hne h]
  | cons e t ih =>
    obtain ⟨a, b⟩ := e
    by_cases hak : a = k
    · subst hak
      simp only [appendSample, if_pos rfl, lookupA]
      rw [if_neg hne, if_neg hne]
    · simp only [appendSample, if_neg hak, lookupA, ih]

theorem findOpt_append {α : Type} (p : α → Bool) :
    ∀ l1 l2 : List α, (l1 ++ l2).find? p =
      match l1.find? p with
      | some x => some x
      | none => l2.find? p := by
  intro l1 l2
  induction l1 with
  | nil => simp
  | cons a t ih =>
    cases hp : p a
    · rw [List.cons_append, List.find?_cons_of_neg _ (by simp [hp]),
        List.find?_cons_of_neg _ (by simp [hp]), ih]
    · rw [List.cons_append, List.find?_cons_of_pos _ hp, List.find?_cons_of_pos _ hp]

/-! ## Step characterization of the row loop -/

/-- A successful row step either leaves the state unchanged (row filtered out)
    or — exactly when `rowEntry` accepts the row — appends the representative
    to the country's sample list, inserts the country into the visible set and
    overwrites the location key's representative. -/
theorem processRow_spec (st st' : FeedState) (row : List Str)
    (h : processRow st row = some st') :
    (rowEntry row = none ∧ st' = st)
    ∨ (∃ key ip, rowEntry row = some (key, ip) ∧
        st' = ⟨appendSample (ccOfRow row) ip st.sampleIps,
               insertVisible (ccOfRow row) st.visible,
               updA key ip st.locations⟩) := by
  cases row with
  | nil => exact absurd h (by simp [processRow])
  | cons c0 rest =>
    simp only [processRow] at h
    split at h
    · next hp =>
      injection h with h
      exact Or.inl ⟨by simp [rowEntry, hp], h.symm⟩
    · next p hp =>
      split at h
      · next hk => cases h
      · next key hk =>
        split at h
        · next hc =>
          injection h with h
          exact Or.inr ⟨key, repAddr p, by simp [rowEntry, hp, hk, hc], h.symm⟩
        · next hc =>
          injection h with h
          exact Or.inl ⟨by simp [rowEntry, hp, hk, hc], h.symm⟩

/-- Effect of one row step on a `locations` lookup. -/
theorem processRow_locations (st st' : FeedState) (row : List Str)
    (h : processRow st row = some st') (k : Str) :
    lookupA k st'.locations =
      match rowEntry row with
      | some e => if e.1 = k then some e.2 else lookupA k st.locations
      | none => lookupA k st.locations := by
  rcases processRow_spec st st' row h with ⟨hre, rfl⟩ | ⟨key, ip, hre, rfl⟩
  · rw [hre]
  · rw [hre]
    exact lookupA_updA key k ip st.locations

/-- `locations` lookup after the whole row loop: the representative of the
    last accepted row for the key, falling back to the initial state. -/
theorem processRows_lookup (k : Str) :
    ∀ rows st0 st, processRows st0 rows = some st →
      lookupA k st.locations =
        match (rows.filterMap rowEntry).reverse.find? (fun e => decide (e.1 = k)) with
        | some e => some e.2
        | none => lookupA k st0.locations := by
  intro rows
  induction rows with
  | nil =>
    intro st0 st h
    injection h with h
    subst h
    rfl
  | cons row rest ih =>
    intro st0 st h
    simp only [processRows] at h
    cases hs : processRow st0 row with
    | none => rw [hs] at h; cases h
    | some st1 =>
      rw [hs] at h
      have hstep := processRow_locations st0 st1 row hs k
      have hrec := ih st1 st h
      cases hre : rowEntry row with
      | none =>
        rw [hre] at hstep
        simp only [List.filterMap_cons, hre]
        rw [hrec]
        cases hf : (rest.filterMap rowEntry).reverse.find? (fun e => decide (e.1 = k)) with
        | some x => rfl
        | none => exact hstep
      | some e =>
        rw [hre] at hstep
        simp only [List.filterMap_cons, hre, List.reverse_cons]
        rw [hrec, findOpt_append]
        cases hf : (rest.filterMap rowEntry).reverse.find? (fun x => decide (x.1 = k)) with
        | some x => rfl
        | none =>
          have hstep2 : lookupA k st1.locations =
              if e.1 = k then some e.2 else lookupA k st0.locations := hstep
          by_cases he : e.1 = k
          · rw [List.find?_cons_of_pos _ (by simpa using he)]
            simp [hstep2, he]
          · rw [List.find?_cons_of_neg _ (by simpa using he), List.find?_nil]
            simp [hstep2, he]

/-- Key-uniqueness of `locations` is preserved by the row loop. -/
theorem processRows_nodup_locations :
    ∀ rows st0 st, (st0.locations.map Prod.fst).Nodup →
      processRows st0 rows = some st → (st.locations.map Prod.fst).Nodup := by
  intro rows
  induction rows with
  | nil =>
    intro st0 st h0 h
    injection h with h
    subst h
    exact h0
  | cons row rest ih =>
    intro st0 st h0 h
    simp only [processRows] at h
    cases hs : processRow st0 row with
    | none => rw [hs] at h; cases h
    | some st1 =>
      rw [hs] at h
      refine ih st1 st ?_ h
      rcases processRow_spec st0 st1 row hs with ⟨_, rfl⟩ | ⟨key, ip, _, rfl⟩
      · exact h0
      · exact nodup_map_fst_updA key ip st0.locations h0

/-! ## C5: one representative per grouping key, last write wins -/

/-- Claim C5: after a successful run of the row loop, the `locations` map
    holds at most one representative per grouping key (no duplicate keys); the
    representative stored under a key is exactly the one contributed by the
    *last* accepted row deriving that key; and every accepted row's
    representative is the prefix's own sole address for single-address
    prefixes, and the successor of the range's first (network) address — the
    second address of the range — for multi-address prefixes. -/
theorem c5_one_representative_per_key (rows : List (List Str)) (st : FeedState)
    (h : processRows initState rows = some st) :
    (∀ k, lookupA k st.locations =
      ((rows.filterMap rowEntry).reverse.find? (fun e => decide (e.1 = k))).map Prod.snd)
    ∧ (st.locations.map Prod.fst).Nodup
    ∧ (∀ row key ip, rowEntry row = some (key, ip) →
        ∃ p, parseCidr (trimSpace (row.getD 0 [])) = some p
          ∧ isPrivate p.addr = false
          ∧ (isSingleIP p = true → ip = p.addr)
          ∧ (isSingleIP p = false → ip = addrNext (rangeFrom p))) := by
  refine ⟨?_, processRows_nodup_locations rows initState st (by simp [initState]) h, ?_⟩
  · intro k
    rw [processRows_lookup k rows initState st h]
    cases (rows.filterMap rowEntry).reverse.find? (fun e => decide (e.1 = k)) with
    | some e => rfl
    | none => rfl
  · intro row key ip hre
    cases row with
    | nil => cases hre
    | cons c0 rest =>
      simp only [rowEntry] at hre
      split at hre
      · next hp => cases hre
      · next p hp =>
        split at hre
        · next hk => cases hre
        · next k2 hk =>
          split at hre
          · next hc =>
            injection hre with hre
            refine ⟨p, by simpa using hp, ?_, ?_, ?_⟩
            · simp only [Bool.and_eq_true, Bool.not_eq_true'] at hc
              exact hc.1.2
            · intro hs
              have : ip = repAddr p := (Prod.mk.injEq _ _ _ _ ▸ hre).2.symm
              rw [this, repAddr, if_pos hs]
            · intro hs
              have : ip = repAddr p := (Prod.mk.injEq _ _ _ _ ▸ hre).2.symm
              rw [this, repAddr, hs]
              simp
          · next hc => cases hre

/-- Witness for `c5_one_representative_per_key`: the non-private row
    `98.97.0.0/16,US,,` retains `98.97.0.1` (second address of the range)
    under key `"US,,"`; the private row `10.0.0.0/8,US,,` is dropped. -/
theorem c5_one_representative_per_key_witness :
    processRows initState
      [[gs "98.97.0.0/16", gs "US", gs "", gs ""], [gs "10.0.0.0/8", gs "US", gs "", gs ""]]
      = some st5
    ∧ lookupA (gs "US,,") st5.locations = some (Addr.v4 1650524161)
    ∧ (st5.locations.map Prod.fst).Nodup := by
  have h := c5_one_representative_per_key
    [[gs "98.97.0.0/16", gs "US", gs "", gs ""], [gs "10.0.0.0/8", gs "US", gs "", gs ""]]
    st5 (by decide)
  refine ⟨by decide, ?_, h.2.1⟩
  rw [h.1 (gs "US,,")]
  decide

/-! ## C7: visibleCountries matches the retained samples -/

theorem visInv_step (st st' : FeedState) (row : List Str)
    (h : processRow st row = some st') (hv : visInv st) : visInv st' := by
  rcases processRow_spec st st' row h with ⟨_, rfl⟩ | ⟨key, ip, _, rfl⟩
  · exact hv
  · obtain ⟨hnd, hiff⟩ := hv
    refine ⟨nodup_insertVisible _ _ hnd, ?_⟩
    intro cc
    rw [mem_insertVisible]
    by_cases hcc : cc = ccOfRow row
    · simp only [hcc, eq_self_iff_true, or_true, true_iff]
      exact ⟨(lookupA (ccOfRow row) st.sampleIps).getD [] ++ [ip],
        lookupA_appendSample_same (ccOfRow row) ip st.sampleIps, by simp⟩
    · have hne : ccOfRow row ≠ cc := fun hx => hcc hx.symm
      rw [lookupA_appendSample_ne _ _ _ hne]
      simp only [hcc, or_false]
      exact hiff cc

theorem visInv_run :
    ∀ rows st0 st, visInv st0 → processRows st0 rows = some st → visInv st := by
  intro rows
  induction rows with
  | nil =>
    intro st0 st h0 h
    injection h with h
    subst h
    exact h0
  | cons row rest ih =>
    intro st0 st h0 h
    simp only [processRows] at h
    cases hs : processRow st0 row with
    | none => rw [hs] at h; cases h
    | some st1 =>
      rw [hs] at h
      exact ih st1 st (visInv_step st0 st1 row hs h0) h

/-- Claim C7: after a successful run, the visible-country set is
    duplicate-free and contains exactly the (uppercased) country codes that
    own a retained sample; any enumeration of it (hence the serialized
    `visibleCountries` array) is duplicate-free with the same membership; and
    a row whose location key is malformed (empty) leaves the state — samples
    and visible countries alike — unchanged. -/
theorem c7_visible_countries (rows : List (List Str)) (st : FeedState)
    (h : processRows initState rows = some st) :
    (st.visible.Nodup
      ∧ (∀ cc, cc ∈ st.visible ↔ ∃ l, lookupA cc st.sampleIps = some l ∧ l ≠ [])
      ∧ (∀ o : List Str, o.Perm st.visible → o.Nodup ∧ ∀ cc, cc ∈ o ↔ cc ∈ st.visible))
    ∧ (∀ st' row, feedColumnsToKey row = some [] → processRow st' row = some st') := by
  have hinv : visInv st := visInv_run rows initState st
    (by constructor
        · simp [initState]
        · intro cc; simp [initState, lookupA]) h
  refine ⟨⟨hinv.1, hinv.2, ?_⟩, ?_⟩
  · intro o hperm
    exact ⟨hperm.nodup_iff.mpr hinv.1, fun cc => hperm.mem_iff⟩
  · intro st' row hkey
    cases row with
    | nil => simp [feedColumnsToKey] at hkey
    | cons c0 rest =>
      simp only [processRow]
      cases hp : parseCidr (trimSpace c0) with
      | none => rfl
      | some p =>
        rw [hkey]
        simp

/-- Witness for `c7_visible_countries` on the `98.97.0.0/16,US,,` run. -/
theorem c7_visible_countries_witness :
    (gs "US" ∈ st5.visible ↔ ∃ l, lookupA (gs "US") st5.sampleIps = some l ∧ l ≠ [])
    ∧ processRow initState [gs "98.97.0.0/16", gs "US", gs "US-MASS", gs ""] = some initState := by
  constructor
  · exact ((c7_visible_countries
      [[gs "98.97.0.0/16", gs "US", gs "", gs ""], [gs "10.0.0.0/8", gs "US", gs "", gs ""]]
      st5 (by decide)).1.2.1 (gs "US"))
  · exact (c7_visible_countries [] initState rfl).2 initState
      [gs "98.97.0.0/16", gs "US", gs "US-MASS", gs ""] (by decide)

/-! ## C4: determinism and byte-identity of the outputs -/

/-- Claim C4 (counterexample): on an unchanged two-country input, both
    `["US", "CA"]` and `["CA", "US"]` are possible enumerations of the
    `visibleCountries` map (Go leaves `range` order unspecified and randomizes
    it per run), and the two serialized metadata files differ byte-wise even
    though their `lastModified` strings are identical — so two runs need not
    produce byte-identical metadata modulo the timestamp. -/
theorem c4_counterexample :
    processRows initState
      [[gs "98.97.0.0/16", gs "US", gs "", gs ""], [gs "1.0.0.0/24", gs "CA", gs "", gs ""]]
      = some stC4
    ∧ List.Perm [gs "US", gs "CA"] stC4.visible
    ∧ List.Perm [gs "CA", gs "US"] stC4.visible
    ∧ marshalFeedMeta (gs "SpaceX Starlink") (gs "https://geoip.starlinkisp.net/feed.csv")
        (gs "2026-01-01T00:00:00Z") [gs "US", gs "CA"]
      ≠ marshalFeedMeta (gs "SpaceX Starlink") (gs "https://geoip.starlinkisp.net/feed.csv")
        (gs "2026-01-01T00:00:00Z") [gs "CA", gs "US"] := by
  decide

/-- Claim C4 (amended): the in-memory result of the row loop is a
    deterministic function of the input rows — two runs on the same rows
    produce equal states, in particular identical sample sets — and any two
    enumerations of the `visibleCountries` map are permutations of one
    another; only the order of the serialized `visibleCountries` array (and
    hence the exact metadata bytes) depends on Go's unspecified map iteration
    order. -/
theorem c4_determinism (rows : List (List Str)) (st1 st2 : FeedState) (o1 o2 : List Str)
    (h1 : processRows initState rows = some st1)
    (h2 : processRows initState rows = some st2) :
    st1 = st2 ∧ (o1.Perm st1.visible → o2.Perm st2.visible → o1.Perm o2) := by
  have he : st1 = st2 := by
    have := h1.symm.trans h2
    injection this
  refine ⟨he, fun p1 p2 => ?_⟩
  subst he
  exact p1.trans p2.symm

/-- Witness for `c4_determinism` on the two-country input. -/
theorem c4_determinism_witness :
    stC4 = stC4 ∧ List.Perm [gs "US", gs "CA"] [gs "CA", gs "US"] := by
  have h := c4_determinism
    [[gs "98.97.0.0/16", gs "US", gs "", gs ""], [gs "1.0.0.0/24", gs "CA", gs "", gs ""]]
    stC4 stC4 [gs "US", gs "CA"] [gs "CA", gs "US"] (by decide) (by decide)
  exact ⟨h.1, h.2 (by decide) (by decide)⟩
